import Mathlib

/-!
Verification of the path-addressed user-data store in `vkts/usrdata.py`.

The module stores three JSON documents (`acc`, `adm`, `univ`) as attributes of
a `UsrData` object and exposes `get`, `set`, `del_`, `drop_activations` and
`get_active_obj`, each of which reloads the documents from disk, mutates them
in memory and rewrites one whole document file.  Every public operation wraps
its body in a `try/except` whose handler is `exception_handler` from
`vkts/utils.py`.

Shallow embedding notes:

* JSON values are `JVal`; objects are insertion-ordered association lists with
  string keys, exactly what `json.load` produces.  A Python `dict` can acquire
  an integer key through `d.update(((last, new_obj),))` or `d[f] = {}` with an
  integer segment; `json.dump` serialises such a key as its decimal string and
  the traced code never re-reads the key before the dump, so the embedding
  stores it eagerly as the decimal string (`segKeyStr`).
* A path segment (`Seg`) is a string key or an integer index, as in the
  source, where `isinstance(f, int)` switches between the two cases.
* Python container behaviour is modelled by `pyContains` (the `in` operator),
  `pyGetItem` / `pySetItem` (subscript read / write, with Python's negative
  indexing) and `pyTruthy` (`bool(x)`).  Operations that raise `TypeError`,
  `KeyError`, `IndexError` or `AttributeError` return `Except.error ()`.
* Each operation starts from the persisted state (a root object holding the
  documents) because the source reloads all documents via `self.open()` at the
  start of every call; the data is therefore a tree, with no aliasing.
* Modelled from the spec: `exception_handler` (in `vkts/utils.py`, outside the
  sources given here) "catches every exception, prints a message, and stops",
  i.e. it terminates the command instead of returning a value.  Reaching it is
  modelled as a terminal error outcome (`GetRes.err`, `Except.error`,
  `DelRes.err`, `none`), never as a not-found result.
* `json.dump` at the end of a mutating operation persists the single document
  named by the first path segment; an operation that raises or returns before
  the dump leaves the persisted state unchanged.  `delOp` distinguishes the
  early `return None` of the parent walk (`DelRes.noDump`) from a completed
  dump (`DelRes.persisted`).
-/

namespace Vkts

/-- JSON values as loaded by `json.load`: objects keep insertion order. -/
inductive JVal where
  | null
  | bool (b : Bool)
  | num (n : Int)
  | str (s : String)
  | arr (elems : List JVal)
  | obj (entries : List (String × JVal))

/-- One element of a `field_path`: a string key or an integer index
(`isinstance(f, int)` in the source). -/
inductive Seg where
  | key (s : String)
  | idx (i : Int)
  deriving DecidableEq, Repr

/-- Lookup in an insertion-ordered object, as Python `d[k]` on a `dict`. -/
def findKey (s : String) : List (String × JVal) → Option JVal
  | [] => none
  | (k, v) :: rest => if k == s then some v else findKey s rest

/-- Python `d[k] = v` on a `dict`: replace in place if the key exists
(keeping its position), otherwise append at the end. -/
def replaceOrAppend (s : String) (v : JVal) : List (String × JVal) → List (String × JVal)
  | [] => [(s, v)]
  | (k, w) :: rest => if k == s then (k, v) :: rest else (k, w) :: replaceOrAppend s v rest

/-- Python `del d[k]` on a `dict`: drop the (unique) entry with that key. -/
def eraseKey (s : String) : List (String × JVal) → List (String × JVal)
  | [] => []
  | (k, w) :: rest => if k == s then rest else (k, w) :: eraseKey s rest

/-- Python `is None`. -/
def isNull : JVal → Bool
  | .null => true
  | _ => false

/-- Python `==` between a path segment and a list element, as used by the
`in` membership test and `list.remove`; `True == 1` and `False == 0` hold in
Python, so an integer segment also matches a boolean element. -/
def segEqVal : Seg → JVal → Bool
  | .key s, .str t => s == t
  | .idx i, .num n => i == n
  | .idx i, .bool b => i == (if b then (1 : Int) else 0)
  | _, _ => false

/-- Python substring test `needle in hay`. -/
def strContains (hay needle : String) : Bool :=
  (List.range (hay.length + 1)).any fun i => (hay.drop i).take needle.length == needle

/-- Python's `str()` of a key, used when `json.dump` serialises an integer
dictionary key. -/
def segKeyStr : Seg → String
  | .key s => s
  | .idx i => toString i

/-- List lookup by position (`xs.get?`) written as a plain recursion, for self-contained lemmas. -/
def listGetN : List JVal → Nat → Option JVal
  | [], _ => none
  | x :: _, 0 => some x
  | _ :: rest, n + 1 => listGetN rest n

/-- In-place update of the n-th element (no-op when out of range). -/
def listSetN : List JVal → Nat → JVal → List JVal
  | [], _, _ => []
  | _ :: rest, 0, v => v :: rest
  | x :: rest, n + 1, v => x :: listSetN rest n v

/-- Removal of the n-th element (no-op when out of range). -/
def listRemoveN : List JVal → Nat → List JVal
  | [], _ => []
  | _ :: rest, 0 => rest
  | x :: rest, n + 1 => x :: listRemoveN rest n

/-- Python's normalised list index: negative indices count from the end. -/
def normIdx (xs : List JVal) (i : Int) : Nat :=
  if 0 ≤ i then i.toNat else ((xs.length : Int) + i).toNat

/-- Python `xs[i]` on a list: negative indexing, `IndexError` out of range. -/
def pyIdx (xs : List JVal) (i : Int) : Option JVal :=
  if 0 ≤ i ∨ 0 ≤ (xs.length : Int) + i then listGetN xs (normIdx xs i) else none

/-- Python `xs[i] = v` on a list. -/
def pySetIdx (xs : List JVal) (i : Int) (v : JVal) : Option (List JVal) :=
  if (0 ≤ i ∨ 0 ≤ (xs.length : Int) + i) ∧ normIdx xs i < xs.length then
    some (listSetN xs (normIdx xs i) v)
  else none

/-- Python `del xs[i]` on a list. -/
def pyRemoveIdx (xs : List JVal) (i : Int) : Option (List JVal) :=
  if (0 ≤ i ∨ 0 ≤ (xs.length : Int) + i) ∧ normIdx xs i < xs.length then
    some (listRemoveN xs (normIdx xs i))
  else none

/-- Python's `in` operator, `f in d`; `TypeError` on `None`, numbers and
booleans, key containment on dicts, membership on lists, substring on
strings (an integer cannot be tested for membership in a string). -/
def pyContains (d : JVal) (f : Seg) : Except Unit Bool :=
  match d with
  | .obj kvs =>
      match f with
      | .key s => .ok (kvs.any fun p => p.1 == s)
      | .idx _ => .ok false
  | .arr xs => .ok (xs.any fun x => segEqVal f x)
  | .str t =>
      match f with
      | .key s => .ok (strContains t s)
      | .idx _ => .error ()
  | _ => .error ()

/-- Python subscript read `d[f]`. -/
def pyGetItem (d : JVal) (f : Seg) : Except Unit JVal :=
  match d, f with
  | .obj kvs, .key s =>
      match findKey s kvs with
      | some v => .ok v
      | none => .error ()
  | .obj _, .idx _ => .error ()
  | .arr xs, .idx i =>
      match pyIdx xs i with
      | some v => .ok v
      | none => .error ()
  | .arr _, .key _ => .error ()
  | _, _ => .error ()

/-- Python subscript write `d[f] = v`.  An integer key written into a dict is
stored as its decimal string, matching what `json.dump` persists (see the
header comment). -/
def pySetItem (d : JVal) (f : Seg) (v : JVal) : Except Unit JVal :=
  match d, f with
  | .obj kvs, f' => .ok (.obj (replaceOrAppend (segKeyStr f') v kvs))
  | .arr xs, .idx i =>
      match pySetIdx xs i v with
      | some xs' => .ok (.arr xs')
      | none => .error ()
  | _, _ => .error ()

/-- Python truthiness `bool(x)`, used by `filter(bool, attr_list)`. -/
def pyTruthy : JVal → Bool
  | .null => false
  | .bool b => b
  | .num n => n != 0
  | .str s => !s.isEmpty
  | .arr xs => !xs.isEmpty
  | .obj kvs => !kvs.isEmpty

/-- Result of `UsrData.get`: the value at the path, the `return None` of a
failed lookup, or the exception path (`assert` failure or `TypeError`) into
`exception_handler`. -/
inductive GetRes where
  | val (v : JVal)
  | notFound
  | err

/-- The traversal loop of `UsrData.get` (lines 58-76 of `usrdata.py`), one
iteration per path segment:

* `if d is None: return None`;
* integer segment: `assert(isinstance(d, list))`, then descend when
  `f < len(d)` (Python indexing, so negative `f` passes the bound check and
  counts from the end; `f < -len(d)` raises `IndexError`), else `return None`;
* other segment: `if f in d: d = d[f] else: return None`, where membership on
  a list or substring test on a string is followed by a `TypeError` on the
  subscript. -/
def getPath : JVal → List Seg → GetRes
  | d, [] => .val d
  | .null, _ :: _ => .notFound
  | .arr xs, .idx i :: fs =>
      if i < (xs.length : Int) then
        match pyIdx xs i with
        | some x => getPath x fs
        | none => .err
      else .notFound
  | _, .idx _ :: _ => .err
  | d, .key s :: fs =>
      match pyContains d (.key s) with
      | .ok true =>
          match pyGetItem d (.key s) with
          | .ok x => getPath x fs
          | .error _ => .err
      | .ok false => .notFound
      | .error _ => .err

/-- The descending walk of `UsrData.set` (lines 95-101): for each parent
segment `f`, `if f not in d or d[f] is None: d[f] = {}` and `d = d[f]`;
the given continuation `act` runs on the parent container that the walk
reaches and produces its updated value, and the function rebuilds the root.
Two consecutive writes to the same subscript collapse into the final one, so
the rebuild re-checks `d[f] = {}` for its error cases and then stores the
updated child once. -/
def walkAndApply (d : JVal) (fields : List Seg) (act : JVal → Except Unit JVal) :
    Except Unit JVal :=
  match fields with
  | [] => act d
  | f :: fs =>
      match pyContains d f with
      | .error _ => .error ()
      | .ok true =>
          match pyGetItem d f with
          | .error _ => .error ()
          | .ok x =>
              match walkAndApply (if isNull x then JVal.obj [] else x) fs act with
              | .error _ => .error ()
              | .ok sub => pySetItem d f sub
      | .ok false =>
          match pySetItem d f (JVal.obj []) with
          | .error _ => .error ()
          | .ok _ =>
              match walkAndApply (JVal.obj []) fs act with
              | .error _ => .error ()
              | .ok sub => pySetItem d f sub

/-- Python `d.update(((last, new_obj),))` (line 107): `AttributeError` unless
`d` is a dict. -/
def pyUpdate (d : JVal) (last : Seg) (v : JVal) : Except Unit JVal :=
  match d with
  | .obj kvs => .ok (.obj (replaceOrAppend (segKeyStr last) v kvs))
  | _ => .error ()

/-- Lines 104-107 of `UsrData.set`: `if last in d and isinstance(d[last],
list): d[last].append(new_obj) else: d.update(((last, new_obj),))`. -/
def applyLast (d : JVal) (last : Seg) (v : JVal) : Except Unit JVal :=
  match pyContains d last with
  | .error _ => .error ()
  | .ok true =>
      match pyGetItem d last with
      | .error _ => .error ()
      | .ok (.arr xs) => pySetItem d last (.arr (xs ++ [v]))
      | .ok _ => pyUpdate d last v
  | .ok false => pyUpdate d last v

/-- The comprehension `[x['is_activated'] for x in d.values()]` (lines 112 and
175): `KeyError` when a value lacks the key, `TypeError` when it is not a
dict. -/
def collectFlags : List (String × JVal) → Except Unit (List JVal)
  | [] => .ok []
  | (_, v) :: rest =>
      match v with
      | .obj fs =>
          match findKey "is_activated" fs with
          | some x =>
              match collectFlags rest with
              | .ok l => .ok (x :: l)
              | .error _ => .error ()
          | none => .error ()
      | _ => .error ()

/-- The `correct_is_act` pass shared by `set` (lines 111-115) and `del_`
(lines 174-178): when `len(d) > 0`, collect the `is_activated` attributes of
`d.values()` and, if none is truthy, set `is_activated = True` on the value
of the first key of `d`.  `len` raises `TypeError` on `None`, numbers and
booleans; `.values()` raises `AttributeError` on non-empty lists and
strings. -/
def actPass (d : JVal) : Except Unit JVal :=
  match d with
  | .obj [] => .ok d
  | .obj ((k0, v0) :: rest) =>
      match collectFlags ((k0, v0) :: rest) with
      | .error _ => .error ()
      | .ok flags =>
          if flags.any pyTruthy then .ok (.obj ((k0, v0) :: rest))
          else
            match v0 with
            | .obj fs =>
                .ok (.obj ((k0, .obj (replaceOrAppend "is_activated" (.bool true) fs)) :: rest))
            | _ => .error ()
  | .str s => if s.isEmpty then .ok d else .error ()
  | .arr [] => .ok d
  | .arr (_ :: _) => .error ()
  | _ => .error ()

/-- The keys of `UsrData.path_map`: the three persisted documents. -/
def pathMapKeys : List String := ["acc", "adm", "univ"]

/-- Lines 118-120 (and 181-183, 203-205): `data_type = field_path[0]`,
`file_path = self.path_map[data_type]` (`KeyError` when the first segment is
not a document name) and `json.dump(self.__dict__[data_type], ...)`.  Only the
document named by the first segment is rewritten, so the persisted state is
the old root with that document replaced by its in-memory value. -/
def dumpStep (root : JVal) (p0 : Seg) (mem : JVal) : Option JVal :=
  match p0 with
  | .idx _ => none
  | .key s =>
      if s ∈ pathMapKeys then
        match pyGetItem mem (.key s) with
        | .ok doc =>
            match root with
            | .obj kvs0 => some (.obj (replaceOrAppend s doc kvs0))
            | _ => none
        | .error _ => none
      else none

/-- The write at the parent container followed by the optional activation
pass, lines 104-115 of `UsrData.set`. -/
def setCont (last : Seg) (v : JVal) (cia : Bool) (d : JVal) : Except Unit JVal :=
  match applyLast d last v with
  | .error _ => .error ()
  | .ok d1 => if cia then actPass d1 else .ok d1

/-- Model of `UsrData.set` (lines 81-123) on the persisted root: pop the last segment,
walk the parent path with auto-vivification, write or append the new value,
optionally run the activation pass, and persist the document named by the
first segment.  `none` is the exception path (nothing persisted); `some r` is
the new persisted root after `json.dump`. -/
def setOp (root : JVal) (path : List Seg) (v : JVal) (cia : Bool) : Option JVal :=
  match path with
  | [] => none
  | p0 :: _ =>
      match path.getLast? with
      | none => none
      | some last =>
          match walkAndApply root path.dropLast (setCont last v cia) with
          | .error _ => none
          | .ok mem => dumpStep root p0 mem

/-- Outcome of the parent-path walk of `UsrData.del_`: reaching the parent
(with the rebuilt root after the continuation), one of the `return None`
statements (lines 144, 150, 155), or the exception path. -/
inductive DStep where
  | ok (d : JVal)
  | stop
  | crash

/-- The parent walk of `UsrData.del_` (lines 139-155), identical in shape to
the loop of `get`, except that it mutates nothing and `return None` skips the
rest of the function, including `json.dump`.  The continuation `fin` performs
the deletion and the optional activation pass on the parent container. -/
def delWalk (d : JVal) (fields : List Seg) (fin : JVal → Except Unit JVal) : DStep :=
  match fields with
  | [] =>
      match fin d with
      | .ok d' => .ok d'
      | .error _ => .crash
  | f :: fs =>
      match d, f with
      | .null, _ => .stop
      | .arr xs, .idx i =>
          if i < (xs.length : Int) then
            match pyIdx xs i with
            | some x =>
                match delWalk x fs fin with
                | .ok x' =>
                    match pySetItem (.arr xs) (.idx i) x' with
                    | .ok d' => .ok d'
                    | .error _ => .crash
                | r => r
            | none => .crash
          else .stop
      | _, .idx _ => .crash
      | d', .key s =>
          match pyContains d' (.key s) with
          | .ok true =>
              match pyGetItem d' (.key s) with
              | .ok x =>
                  match delWalk x fs fin with
                  | .ok x' =>
                      match pySetItem d' (.key s) x' with
                      | .ok d'' => .ok d''
                      | .error _ => .crash
                  | r => r
              | .error _ => .crash
          | .ok false => .stop
          | .error _ => .crash

/-- The deletion step of `UsrData.del_` (lines 158-170): on a list, an
integer last segment deletes by index when `last < len(d)` (with Python
negative indexing, `IndexError` below `-len(d)`) and a string last segment
removes the first equal element if present; on a dict, delete the key if
present; on anything else both `isinstance` tests fail and nothing happens. -/
def removeFirstEq (f : Seg) : List JVal → List JVal
  | [] => []
  | x :: rest => if segEqVal f x then rest else x :: removeFirstEq f rest

/-- See `removeFirstEq`; this is the `# del` block itself. -/
def delLast (d : JVal) (last : Seg) : Except Unit JVal :=
  match d with
  | .arr xs =>
      match last with
      | .idx i =>
          if i < (xs.length : Int) then
            match pyRemoveIdx xs i with
            | some xs' => .ok (.arr xs')
            | none => .error ()
          else .ok (.arr xs)
      | .key s => .ok (.arr (if xs.any (fun x => segEqVal (.key s) x) then removeFirstEq (.key s) xs else xs))
  | .obj kvs =>
      match last with
      | .key s => .ok (.obj (if kvs.any (fun p => p.1 == s) then eraseKey s kvs else kvs))
      | .idx _ => .ok (.obj kvs)
  | other => .ok other

/-- Outcome of `UsrData.del_`: a completed `json.dump` with the new persisted
root, an early `return None` with nothing persisted, or the exception path
with nothing persisted. -/
inductive DelRes where
  | persisted (r : JVal)
  | noDump
  | err

/-- The deletion at the parent container followed by the optional activation
pass, lines 158-178 of `UsrData.del_`. -/
def delCont (last : Seg) (cia : Bool) (d : JVal) : Except Unit JVal :=
  match delLast d last with
  | .error _ => .error ()
  | .ok d1 => if cia then actPass d1 else .ok d1

/-- Model of `UsrData.del_` (lines 125-186) on the persisted root. -/
def delOp (root : JVal) (path : List Seg) (cia : Bool) : DelRes :=
  match path with
  | [] => .err
  | p0 :: _ =>
      match path.getLast? with
      | none => .err
      | some last =>
          match delWalk root path.dropLast (delCont last cia) with
          | .ok mem =>
              match dumpStep root p0 mem with
              | some r => .persisted r
              | none => .err
          | .stop => .noDump
          | .crash => .err

/-- The mutation loop of `drop_activations` (lines 199-200): set
`is_activated = False` on every value of the dictionary; `TypeError` when a
value is not a dict. -/
def setAllFalse : List (String × JVal) → Option (List (String × JVal))
  | [] => some []
  | (k, v) :: rest =>
      match v with
      | .obj fs =>
          match setAllFalse rest with
          | some rest' => some ((k, .obj (replaceOrAppend "is_activated" (.bool false) fs)) :: rest')
          | none => none
      | _ => none

/-- Writing back through the alias returned by `get`: replace the value at a
path that `getPath` resolves, following exactly the same route (the data is a
tree, so mutating the alias and re-serialising the root coincide). -/
def modifyAt (d : JVal) (path : List Seg) (newv : JVal) : Option JVal :=
  match path with
  | [] => some newv
  | f :: fs =>
      match d, f with
      | .null, _ => none
      | .arr xs, .idx i =>
          if i < (xs.length : Int) then
            match pyIdx xs i with
            | some x =>
                match modifyAt x fs newv with
                | some x' =>
                    match pySetItem (.arr xs) (.idx i) x' with
                    | .ok d' => some d'
                    | .error _ => none
                | none => none
            | none => none
          else none
      | _, .idx _ => none
      | d', .key s =>
          match pyContains d' (.key s) with
          | .ok true =>
              match pyGetItem d' (.key s) with
              | .ok x =>
                  match modifyAt x fs newv with
                  | some x' =>
                      match pySetItem d' (.key s) x' with
                      | .ok d'' => some d''
                      | .error _ => none
                  | none => none
              | .error _ => none
          | _ => none

/-- Model of `UsrData.drop_activations` (lines 188-208) on the persisted root:
`objs_dict = self.get(*field_path)`, set `is_activated = False` on every
value (`AttributeError` when `get` returned `None` or a non-dict), then dump
the document named by the first segment.  `none` is the exception path. -/
def dropOp (root : JVal) (path : List Seg) : Option JVal :=
  match getPath root path with
  | .val (.obj kvs) =>
      match setAllFalse kvs with
      | some kvs' =>
          match modifyAt root path (.obj kvs') with
          | some mem =>
              match path with
              | p0 :: _ => dumpStep root p0 mem
              | [] => none
          | none => none
      | none => none
  | _ => none

/-- The scan of `get_active_obj` (lines 221-227): first value whose
`is_activated` attribute is truthy, paired with its key; a value without the
key or a non-dict value raises, and exhausting the loop hits the bare
`raise`.  All failure modes end in `exception_handler`. -/
def findActiveEntries : List (String × JVal) → Option (String × JVal)
  | [] => none
  | (k, v) :: rest =>
      match v with
      | .obj fs =>
          match findKey "is_activated" fs with
          | some x => if pyTruthy x then some (k, .obj fs) else findActiveEntries rest
          | none => none
      | _ => none

/-- Model of `UsrData.get_active_obj` (lines 210-234) on the persisted root: `none` is
any failure surfaced through `exception_handler` (including the `NoActiveEntry`
case raised when no value is activated). -/
def getActiveObj (root : JVal) (path : List Seg) : Option (String × JVal) :=
  match getPath root path with
  | .val (.obj kvs) => findActiveEntries kvs
  | _ => none

/-- The parent container that `set`'s walk reaches, when every parent segment
is a string key and every pre-existing intermediate value is a dict (missing
or `None` intermediates are auto-vivified to `{}`); `none` on any other
shape. -/
def vivParent? (d : JVal) (fields : List Seg) : Option JVal :=
  match fields with
  | [] =>
      match d with
      | .obj kvs => some (.obj kvs)
      | _ => none
  | .key s :: fs =>
      match d with
      | .obj kvs =>
          vivParent?
            (match findKey s kvs with
             | some x => if isNull x then JVal.obj [] else x
             | none => JVal.obj []) fs
      | _ => none
  | .idx _ :: _ => none

/-- An entry of an object dictionary whose value carries
`is_activated == True`. -/
def isActiveEntry (p : String × JVal) : Bool :=
  match p.2 with
  | .obj fs =>
      match findKey "is_activated" fs with
      | some (.bool true) => true
      | _ => false
  | _ => false

theorem findKey_replaceOrAppend_self (s : String) (v : JVal) (l : List (String × JVal)) :
    findKey s (replaceOrAppend s v l) = some v := by
  induction l with
  | nil => simp [replaceOrAppend, findKey]
  | cons p rest ih =>
      obtain ⟨k, w⟩ := p
      by_cases h : (k == s) = true
      · simp [replaceOrAppend, h, findKey]
      · simp [replaceOrAppend, h, findKey, ih]

theorem any_key_of_findKey_some {s : String} {l : List (String × JVal)} {x : JVal}
    (h : findKey s l = some x) : (l.any fun p => p.1 == s) = true := by
  induction l with
  | nil => simp [findKey] at h
  | cons p rest ih =>
      obtain ⟨k, w⟩ := p
      by_cases hk : (k == s) = true
      · simp [List.any_cons, hk]
      · simp [findKey, hk] at h
        simp [List.any_cons, hk, ih h]

theorem any_key_of_findKey_none {s : String} {l : List (String × JVal)}
    (h : findKey s l = none) : (l.any fun p => p.1 == s) = false := by
  induction l with
  | nil => simp
  | cons p rest ih =>
      obtain ⟨k, w⟩ := p
      by_cases hk : (k == s) = true
      · simp [findKey, hk] at h
      · simp [findKey, hk] at h
        simp [List.any_cons, hk, ih h]

theorem findKey_isSome_of_any {s : String} {l : List (String × JVal)}
    (h : (l.any fun p => p.1 == s) = true) : ∃ x, findKey s l = some x := by
  cases hf : findKey s l with
  | some x => exact ⟨x, rfl⟩
  | none => rw [any_key_of_findKey_none hf] at h; cases h

theorem listGetN_lt_length {xs : List JVal} {n : Nat} {y : JVal}
    (h : listGetN xs n = some y) : n < xs.length := by
  induction xs generalizing n with
  | nil => simp [listGetN] at h
  | cons x rest ih =>
      cases n with
      | zero => simp
      | succ m => simpa [listGetN, Nat.succ_lt_succ_iff] using ih h

theorem listSetN_length (xs : List JVal) (n : Nat) (v : JVal) :
    (listSetN xs n v).length = xs.length := by
  induction xs generalizing n with
  | nil => simp [listSetN]
  | cons x rest ih =>
      cases n with
      | zero => simp [listSetN]
      | succ m => simp [listSetN, ih]

theorem listGetN_listSetN_self {xs : List JVal} {n : Nat} (v : JVal)
    (h : n < xs.length) : listGetN (listSetN xs n v) n = some v := by
  induction xs generalizing n with
  | nil => simp at h
  | cons x rest ih =>
      cases n with
      | zero => simp [listSetN, listGetN]
      | succ m =>
          simp [listSetN, listGetN]
          exact ih (Nat.lt_of_succ_lt_succ h)

theorem normIdx_congr_length {xs ys : List JVal} (h : ys.length = xs.length) (i : Int) :
    normIdx ys i = normIdx xs i := by
  simp [normIdx, h]

theorem pyIdx_some_lt {xs : List JVal} {i : Int} {y : JVal}
    (h : pyIdx xs i = some y) : normIdx xs i < xs.length := by
  by_cases hc : 0 ≤ i ∨ 0 ≤ (xs.length : Int) + i
  · rw [pyIdx, if_pos hc] at h
    exact listGetN_lt_length h
  · rw [pyIdx, if_neg hc] at h
    cases h

theorem pySetIdx_of_pyIdx {xs : List JVal} {i : Int} {y : JVal}
    (h : pyIdx xs i = some y) (v : JVal) :
    pySetIdx xs i v = some (listSetN xs (normIdx xs i) v) := by
  by_cases hc : 0 ≤ i ∨ 0 ≤ (xs.length : Int) + i
  · exact if_pos ⟨hc, pyIdx_some_lt h⟩
  · rw [pyIdx, if_neg hc] at h
    cases h

theorem pyIdx_listSetN_self {xs : List JVal} {i : Int} {y : JVal}
    (h : pyIdx xs i = some y) (v : JVal) :
    pyIdx (listSetN xs (normIdx xs i) v) i = some v := by
  have hlen : (listSetN xs (normIdx xs i) v).length = xs.length := listSetN_length _ _ _
  by_cases hc : 0 ≤ i ∨ 0 ≤ (xs.length : Int) + i
  · rw [pyIdx, hlen, if_pos hc, normIdx_congr_length hlen]
    exact listGetN_listSetN_self v (by rw [hlen] at *; exact pyIdx_some_lt h) |>.trans rfl
  · rw [pyIdx, if_neg hc] at h
    cases h

theorem getPath_obj_key {kvs : List (String × JVal)} {s : String} {x : JVal}
    (h : findKey s kvs = some x) (fs : List Seg) :
    getPath (JVal.obj kvs) (Seg.key s :: fs) = getPath x fs := by
  simp [getPath, pyContains, any_key_of_findKey_some h, pyGetItem, h]

theorem getPath_obj_key_none {kvs : List (String × JVal)} {s : String}
    (h : findKey s kvs = none) (fs : List Seg) :
    getPath (JVal.obj kvs) (Seg.key s :: fs) = GetRes.notFound := by
  simp [getPath, pyContains, any_key_of_findKey_none h]

theorem getPath_append (as bs : List Seg) (d : JVal) :
    getPath d (as ++ bs) =
      match getPath d as with
      | GetRes.val x => getPath x bs
      | GetRes.notFound => GetRes.notFound
      | GetRes.err => GetRes.err := by
  induction as generalizing d with
  | nil => simp [getPath]
  | cons f fs ih =>
      cases d with
      | null => cases f <;> simp [getPath]
      | arr xs =>
          cases f with
          | idx i =>
              by_cases h : i < (xs.length : Int)
              · cases hp : pyIdx xs i with
                | some x => simp [getPath, h, hp, ih]
                | none => simp [getPath, h, hp]
              · simp [getPath, h]
          | key s =>
              cases hm : xs.any (fun x => segEqVal (Seg.key s) x) with
              | true => simp [getPath, pyContains, hm, pyGetItem]
              | false => simp [getPath, pyContains, hm]
      | obj kvs =>
          cases f with
          | idx i => simp [getPath]
          | key s =>
              cases hf : findKey s kvs with
              | some x =>
                  simp [getPath, pyContains, any_key_of_findKey_some hf, pyGetItem, hf, ih]
              | none => simp [getPath, pyContains, any_key_of_findKey_none hf]
      | str t =>
          cases f with
          | idx i => simp [getPath]
          | key s =>
              cases hm : strContains t s with
              | true => simp [getPath, pyContains, hm, pyGetItem]
              | false => simp [getPath, pyContains, hm]
      | num n => cases f <;> simp [getPath, pyContains]
      | bool b => cases f <;> simp [getPath, pyContains]

theorem delWalk_stop_of_notFound {fields : List Seg} {d : JVal}
    (h : getPath d fields = GetRes.notFound) (k : JVal → Except Unit JVal) :
    delWalk d fields k = DStep.stop := by
  induction fields generalizing d with
  | nil => simp [getPath] at h
  | cons f fs ih =>
      cases d with
      | null => cases f <;> simp [delWalk]
      | arr xs =>
          cases f with
          | idx i =>
              by_cases hlt : i < (xs.length : Int)
              · cases hp : pyIdx xs i with
                | some x =>
                    rw [getPath, if_pos hlt, hp] at h
                    simp [delWalk, hlt, hp, ih h]
                | none => rw [getPath, if_pos hlt, hp] at h; cases h
              · simp [delWalk, hlt]
          | key s =>
              cases hm : xs.any (fun x => segEqVal (Seg.key s) x) with
              | true => simp [getPath, pyContains, hm, pyGetItem] at h
              | false => simp [delWalk, pyContains, hm]
      | obj kvs =>
          cases f with
          | idx i => simp [getPath] at h
          | key s =>
              cases hf : findKey s kvs with
              | some x =>
                  rw [getPath_obj_key hf] at h
                  simp [delWalk, pyContains, any_key_of_findKey_some hf, pyGetItem, hf, ih h]
              | none =>
                  simp [delWalk, pyContains, any_key_of_findKey_none hf]
      | str t =>
          cases f with
          | idx i => simp [getPath] at h
          | key s =>
              cases hm : strContains t s with
              | true => simp [getPath, pyContains, hm, pyGetItem] at h
              | false => simp [delWalk, pyContains, hm]
      | num n => cases f <;> simp [getPath, pyContains] at h
      | bool b => cases f <;> simp [getPath, pyContains] at h

theorem delWalk_ok_of_val {fields : List Seg} {d x x' : JVal}
    {k : JVal → Except Unit JVal}
    (h : getPath d fields = GetRes.val x) (hk : k x = Except.ok x') :
    ∃ d', delWalk d fields k = DStep.ok d' ∧ getPath d' fields = GetRes.val x' := by
  induction fields generalizing d with
  | nil =>
      simp [getPath] at h
      subst h
      exact ⟨x', by simp [delWalk, hk], by simp [getPath]⟩
  | cons f fs ih =>
      cases d with
      | null => cases f <;> simp [getPath] at h
      | arr xs =>
          cases f with
          | idx i =>
              by_cases hlt : i < (xs.length : Int)
              · cases hp : pyIdx xs i with
                | some y =>
                    rw [getPath, if_pos hlt, hp] at h
                    obtain ⟨y', hw, hg⟩ := ih h
                    refine ⟨.arr (listSetN xs (normIdx xs i) y'), ?_, ?_⟩
                    · simp [delWalk, hlt, hp, hw, pySetItem, pySetIdx_of_pyIdx hp]
                    · rw [getPath, if_pos (by rw [listSetN_length]; exact hlt),
                        pyIdx_listSetN_self hp y']
                      exact hg
                | none => rw [getPath, if_pos hlt, hp] at h; cases h
              · rw [getPath, if_neg hlt] at h; cases h
          | key s =>
              cases hm : xs.any (fun x => segEqVal (Seg.key s) x) with
              | true => simp [getPath, pyContains, hm, pyGetItem] at h
              | false => simp [getPath, pyContains, hm] at h
      | obj kvs =>
          cases f with
          | idx i => simp [getPath] at h
          | key s =>
              cases hf : findKey s kvs with
              | some y =>
                  rw [getPath_obj_key hf] at h
                  obtain ⟨y', hw, hg⟩ := ih h
                  refine ⟨.obj (replaceOrAppend s y' kvs), ?_, ?_⟩
                  · simp [delWalk, pyContains, any_key_of_findKey_some hf, pyGetItem, hf, hw,
                      pySetItem, segKeyStr]
                  · rw [getPath_obj_key (findKey_replaceOrAppend_self s y' kvs)]
                    exact hg
              | none => rw [getPath_obj_key_none hf] at h; cases h
      | str t =>
          cases f with
          | idx i => simp [getPath] at h
          | key s =>
              cases hm : strContains t s with
              | true => simp [getPath, pyContains, hm, pyGetItem] at h
              | false => simp [getPath, pyContains, hm] at h
      | num n => cases f <;> simp [getPath, pyContains] at h
      | bool b => cases f <;> simp [getPath, pyContains] at h

theorem modifyAt_of_val {path : List Seg} {d x : JVal} (y : JVal)
    (h : getPath d path = GetRes.val x) :
    ∃ d', modifyAt d path y = some d' ∧ getPath d' path = GetRes.val y := by
  induction path generalizing d with
  | nil => exact ⟨y, rfl, by simp [getPath]⟩
  | cons f fs ih =>
      cases d with
      | null => cases f <;> simp [getPath] at h
      | arr xs =>
          cases f with
          | idx i =>
              by_cases hlt : i < (xs.length : Int)
              · cases hp : pyIdx xs i with
                | some z =>
                    rw [getPath, if_pos hlt, hp] at h
                    obtain ⟨z', hw, hg⟩ := ih h
                    refine ⟨.arr (listSetN xs (normIdx xs i) z'), ?_, ?_⟩
                    · simp [modifyAt, hlt, hp, hw, pySetItem, pySetIdx_of_pyIdx hp]
                    · rw [getPath, if_pos (by rw [listSetN_length]; exact hlt),
                        pyIdx_listSetN_self hp z']
                      exact hg
                | none => rw [getPath, if_pos hlt, hp] at h; cases h
              · rw [getPath, if_neg hlt] at h; cases h
          | key s =>
              cases hm : xs.any (fun x => segEqVal (Seg.key s) x) with
              | true => simp [getPath, pyContains, hm, pyGetItem] at h
              | false => simp [getPath, pyContains, hm] at h
      | obj kvs =>
          cases f with
          | idx i => simp [getPath] at h
          | key s =>
              cases hf : findKey s kvs with
              | some z =>
                  rw [getPath_obj_key hf] at h
                  obtain ⟨z', hw, hg⟩ := ih h
                  refine ⟨.obj (replaceOrAppend s z' kvs), ?_, ?_⟩
                  · simp [modifyAt, pyContains, any_key_of_findKey_some hf, pyGetItem, hf, hw,
                      pySetItem, segKeyStr]
                  · rw [getPath_obj_key (findKey_replaceOrAppend_self s z' kvs)]
                    exact hg
              | none => rw [getPath_obj_key_none hf] at h; cases h
      | str t =>
          cases f with
          | idx i => simp [getPath] at h
          | key s =>
              cases hm : strContains t s with
              | true => simp [getPath, pyContains, hm, pyGetItem] at h
              | false => simp [getPath, pyContains, hm] at h
      | num n => cases f <;> simp [getPath, pyContains] at h
      | bool b => cases f <;> simp [getPath, pyContains] at h

theorem walkAndApply_of_viv {fields : List Seg} {d p p' : JVal}
    {act : JVal → Except Unit JVal}
    (hviv : vivParent? d fields = some p) (hact : act p = Except.ok p') :
    ∃ d', walkAndApply d fields act = Except.ok d'
      ∧ getPath d' fields = GetRes.val p' := by
  induction fields generalizing d with
  | nil =>
      cases d with
      | obj kvs =>
          simp [vivParent?] at hviv
          subst hviv
          exact ⟨p', by simp [walkAndApply, hact], by simp [getPath]⟩
      | null => simp [vivParent?] at hviv
      | arr xs => simp [vivParent?] at hviv
      | str t => simp [vivParent?] at hviv
      | num n => simp [vivParent?] at hviv
      | bool b => simp [vivParent?] at hviv
  | cons f fs ih =>
      cases f with
      | idx i => cases d <;> simp [vivParent?] at hviv
      | key s =>
          cases d with
          | obj kvs =>
              simp only [vivParent?] at hviv
              cases hf : findKey s kvs with
              | some x =>
                  simp only [hf] at hviv
                  by_cases hn : isNull x = true
                  · rw [if_pos hn] at hviv
                    obtain ⟨sub, hw, hg⟩ := ih hviv
                    refine ⟨.obj (replaceOrAppend s sub kvs), ?_, ?_⟩
                    · simp [walkAndApply, pyContains, any_key_of_findKey_some hf, pyGetItem,
                        hf, hn, hw, pySetItem, segKeyStr]
                    · rw [getPath_obj_key (findKey_replaceOrAppend_self s sub kvs)]
                      exact hg
                  · rw [if_neg hn] at hviv
                    obtain ⟨sub, hw, hg⟩ := ih hviv
                    refine ⟨.obj (replaceOrAppend s sub kvs), ?_, ?_⟩
                    · simp [walkAndApply, pyContains, any_key_of_findKey_some hf, pyGetItem,
                        hf, hn, hw, pySetItem, segKeyStr]
                    · rw [getPath_obj_key (findKey_replaceOrAppend_self s sub kvs)]
                      exact hg
              | none =>
                  simp only [hf] at hviv
                  obtain ⟨sub, hw, hg⟩ := ih hviv
                  refine ⟨.obj (replaceOrAppend s sub kvs), ?_, ?_⟩
                  · simp [walkAndApply, pyContains, any_key_of_findKey_none hf, hw,
                      pySetItem, segKeyStr]
                  · rw [getPath_obj_key (findKey_replaceOrAppend_self s sub kvs)]
                    exact hg
          | null => simp [vivParent?] at hviv
          | arr xs => simp [vivParent?] at hviv
          | str t => simp [vivParent?] at hviv
          | num n => simp [vivParent?] at hviv
          | bool b => simp [vivParent?] at hviv

theorem dumpStep_of_val (kvs0 : List (String × JVal)) {mem x : JVal} {dt : String}
    {rest : List Seg} (hdt : dt ∈ pathMapKeys)
    (hmem : getPath mem (Seg.key dt :: rest) = GetRes.val x) :
    ∃ r, dumpStep (JVal.obj kvs0) (Seg.key dt) mem = some r
      ∧ getPath r (Seg.key dt :: rest) = GetRes.val x := by
  cases mem with
  | obj mkvs =>
      cases hf : findKey dt mkvs with
      | some sub =>
          rw [getPath_obj_key hf] at hmem
          refine ⟨.obj (replaceOrAppend dt sub kvs0), ?_, ?_⟩
          · simp [dumpStep, hdt, pyGetItem, hf]
          · rw [getPath_obj_key (findKey_replaceOrAppend_self dt sub kvs0)]
            exact hmem
      | none => rw [getPath_obj_key_none hf] at hmem; cases hmem
  | null => simp [getPath] at hmem
  | arr xs =>
      cases hm : xs.any (fun x => segEqVal (Seg.key dt) x) with
      | true => simp [getPath, pyContains, hm, pyGetItem] at hmem
      | false => simp [getPath, pyContains, hm] at hmem
  | str t =>
      cases hm : strContains t dt with
      | true => simp [getPath, pyContains, hm, pyGetItem] at hmem
      | false => simp [getPath, pyContains, hm] at hmem
  | num n => simp [getPath, pyContains] at hmem
  | bool b => simp [getPath, pyContains] at hmem

/-- All values are dicts carrying `is_activated = False`: the comprehension
succeeds and `filter(bool, attr_list)` is empty. -/
theorem collectFlags_allFalse {l : List (String × JVal)}
    (h : ∀ q ∈ l, ∃ fs, q.2 = JVal.obj fs ∧ findKey "is_activated" fs = some (JVal.bool false)) :
    ∃ flags, collectFlags l = Except.ok flags ∧ flags.any pyTruthy = false := by
  induction l with
  | nil => exact ⟨[], rfl, rfl⟩
  | cons q rest ih =>
      obtain ⟨k, v⟩ := q
      obtain ⟨fs, hv, hflag⟩ := h (k, v) (List.mem_cons_self _ _)
      obtain ⟨flags, hc, hany⟩ := ih (fun q hq => h q (List.mem_cons_of_mem _ hq))
      subst hv
      refine ⟨JVal.bool false :: flags, ?_, ?_⟩
      · simp [collectFlags, hflag, hc]
      · simp [List.any_cons, pyTruthy, hany]

theorem actPass_activate_first {k0 : String} {f0 : List (String × JVal)}
    {others : List (String × JVal)}
    (h0 : findKey "is_activated" f0 = some (JVal.bool false))
    (hothers : ∀ q ∈ others, ∃ fs, q.2 = JVal.obj fs
      ∧ findKey "is_activated" fs = some (JVal.bool false)) :
    actPass (JVal.obj ((k0, JVal.obj f0) :: others)) =
      Except.ok (JVal.obj
        ((k0, JVal.obj (replaceOrAppend "is_activated" (JVal.bool true) f0)) :: others)) := by
  obtain ⟨flags, hc, hany⟩ :=
    collectFlags_allFalse (l := (k0, JVal.obj f0) :: others)
      (by
        intro q hq
        rcases List.mem_cons.mp hq with hq | hq
        · exact ⟨f0, by rw [hq], h0⟩
        · exact hothers q hq)
  simp [actPass, hc, hany]

theorem findActiveEntries_none_of_false {l : List (String × JVal)}
    (h : ∀ q ∈ l, ∃ fs, q.2 = JVal.obj fs
      ∧ findKey "is_activated" fs = some (JVal.bool false)) :
    findActiveEntries l = none := by
  induction l with
  | nil => rfl
  | cons q rest ih =>
      obtain ⟨k, v⟩ := q
      obtain ⟨fs, hv, hflag⟩ := h (k, v) (List.mem_cons_self _ _)
      subst hv
      simp [findActiveEntries, hflag, pyTruthy]
      exact ih (fun q hq => h q (List.mem_cons_of_mem _ hq))

theorem setAllFalse_ok {l : List (String × JVal)}
    (h : ∀ q ∈ l, ∃ fs, q.2 = JVal.obj fs) :
    ∃ l', setAllFalse l = some l'
      ∧ (∀ q ∈ l', ∃ fs, q.2 = JVal.obj fs
          ∧ findKey "is_activated" fs = some (JVal.bool false))
      ∧ l'.map Prod.fst = l.map Prod.fst := by
  induction l with
  | nil => exact ⟨[], rfl, by simp, rfl⟩
  | cons q rest ih =>
      obtain ⟨k, v⟩ := q
      obtain ⟨fs, hv⟩ := h (k, v) (List.mem_cons_self _ _)
      obtain ⟨rest', hr, hprop, hkeys⟩ := ih (fun q hq => h q (List.mem_cons_of_mem _ hq))
      subst hv
      refine ⟨(k, JVal.obj (replaceOrAppend "is_activated" (JVal.bool false) fs)) :: rest',
        by simp [setAllFalse, hr], ?_, by simp [hkeys]⟩
      intro q hq
      rcases List.mem_cons.mp hq with hq | hq
      · exact ⟨_, by rw [hq], findKey_replaceOrAppend_self _ _ _⟩
      · exact hprop q hq

/-- The scan of `get_active_obj` is `List.find?` of the activated entry, for
dictionaries whose values all carry a boolean `is_activated`. -/
theorem findActiveEntries_eq_find {l : List (String × JVal)}
    (h : ∀ q ∈ l, ∃ fs b, q.2 = JVal.obj fs
      ∧ findKey "is_activated" fs = some (JVal.bool b)) :
    findActiveEntries l = l.find? isActiveEntry := by
  induction l with
  | nil => rfl
  | cons q rest ih =>
      obtain ⟨k, v⟩ := q
      obtain ⟨fs, b, hv, hflag⟩ := h (k, v) (List.mem_cons_self _ _)
      subst hv
      cases b with
      | true => simp [findActiveEntries, hflag, pyTruthy, List.find?, isActiveEntry]
      | false =>
          simp [findActiveEntries, hflag, pyTruthy, List.find?, isActiveEntry]
          exact ih (fun q hq => h q (List.mem_cons_of_mem _ hq))

theorem listGetN_isSome_of_lt {xs : List JVal} {n : Nat} (h : n < xs.length) :
    ∃ v, listGetN xs n = some v := by
  induction xs generalizing n with
  | nil => simp at h
  | cons x rest ih =>
      cases n with
      | zero => exact ⟨x, rfl⟩
      | succ m => exact ih (Nat.lt_of_succ_lt_succ h)

theorem listGetN_last {xs : List JVal} (h : xs ≠ []) :
    listGetN xs (xs.length - 1) = some (xs.getLast h) := by
  induction xs with
  | nil => exact absurd rfl h
  | cons x rest ih =>
      cases rest with
      | nil => rfl
      | cons y t =>
          rw [List.getLast_cons (by simp)]
          have := ih (by simp)
          simpa [listGetN] using this

/-- Claim C1, counterexample: an integer segment applied to a container that
is not a sequence does not give a not-found result — `assert(isinstance(d,
list))` fails and `get` ends in `exception_handler`, which stops the command
(exception path modelled as `GetRes.err`). -/
theorem C1_counterexample :
    getPath (JVal.obj [("a", JVal.num 1)]) [Seg.idx 0] = GetRes.err := rfl

/-- Claim C1, amended: `get` returns the addressed value when every segment
resolves (shown as the resolving step for a present key) and returns a
not-found result — without raising — for a nil container, an absent key, and
an out-of-range integer index into a sequence (any index at least the
length); but an integer segment applied to a non-nil container that is not a
sequence takes the assertion/exception path into `exception_handler`, not the
not-found result. -/
theorem C1_amended (xs : List JVal) (kvs : List (String × JVal)) (i : Int)
    (s : String) (x root : JVal) (rest : List Seg) :
    ((xs.length : Int) ≤ i → getPath (JVal.arr xs) (Seg.idx i :: rest) = GetRes.notFound)
    ∧ getPath JVal.null (Seg.idx i :: rest) = GetRes.notFound
    ∧ getPath JVal.null (Seg.key s :: rest) = GetRes.notFound
    ∧ (findKey s kvs = none → getPath (JVal.obj kvs) (Seg.key s :: rest) = GetRes.notFound)
    ∧ (findKey s kvs = some x → getPath (JVal.obj kvs) (Seg.key s :: rest) = getPath x rest)
    ∧ ((match root with
        | JVal.arr _ => False
        | JVal.null => False
        | _ => True) → getPath root (Seg.idx i :: rest) = GetRes.err) := by
  refine ⟨?_, by simp [getPath], by simp [getPath],
    fun h => getPath_obj_key_none h rest, fun h => getPath_obj_key h rest, ?_⟩
  · intro h
    rw [getPath, if_neg (by omega)]
  · intro h
    cases root <;> first | exact h.elim | rfl

/-- Witness for C1: the amended theorem applied at concrete inputs. -/
theorem C1_witness :
    getPath (JVal.arr []) [Seg.idx 0] = GetRes.notFound
    ∧ getPath (JVal.obj []) [Seg.key "k"] = GetRes.notFound
    ∧ getPath (JVal.obj [("k", JVal.num 3)]) [Seg.key "k"] = getPath (JVal.num 3) []
    ∧ getPath (JVal.num 3) [Seg.idx 0] = GetRes.err :=
  ⟨(C1_amended [] [] 0 "k" JVal.null (JVal.num 3) []).1 (by decide),
   (C1_amended [] [] 0 "k" JVal.null (JVal.num 3) []).2.2.2.1 rfl,
   (C1_amended [] [("k", JVal.num 3)] 0 "k" (JVal.num 3) (JVal.num 3) []).2.2.2.2.1 rfl,
   (C1_amended [] [] 0 "k" JVal.null (JVal.num 3) []).2.2.2.2.2 trivial⟩

/-- Claim C2, counterexample: deleting with parent path `acc -> nokey` whose
segment `nokey` does not resolve hits `return None` inside the parent walk
(line 155), before the `json.dump` of line 183: nothing is persisted
(`DelRes.noDump`), contradicting "still attempts persistence of the unchanged
document". -/
theorem C2_counterexample :
    delOp (JVal.obj [("acc", JVal.obj [])])
      [Seg.key "acc", Seg.key "nokey", Seg.key "x"] false = DelRes.noDump := rfl

/-- Claim C2, amended: for every delete call whose parent path contains a
segment that fails to resolve (absent key, out-of-range index, or nil
container — exactly the cases where the non-mutating walk returns not-found),
the operation performs no change to the document and returns early WITHOUT
attempting persistence. -/
theorem C2_amended (root : JVal) (fields : List Seg) (last : Seg) (cia : Bool)
    (hw : getPath root fields = GetRes.notFound) :
    delOp root (fields ++ [last]) cia = DelRes.noDump := by
  cases fields with
  | nil => simp [getPath] at hw
  | cons f0 frest =>
      have hlast : ((f0 :: frest) ++ [last]).getLast? = some last := List.getLast?_concat _
      have hdrop : ((f0 :: frest) ++ [last]).dropLast = f0 :: frest := List.dropLast_concat
      rw [List.cons_append] at hlast hdrop ⊢
      simp only [delOp, hlast, hdrop]
      rw [delWalk_stop_of_notFound hw]

/-- Witness for C2: the amended theorem at a concrete input. -/
theorem C2_witness :
    delOp (JVal.obj []) ([Seg.key "acc"] ++ [Seg.key "z"]) true = DelRes.noDump :=
  C2_amended (JVal.obj []) [Seg.key "acc"] (Seg.key "z") true rfl

/-- Claim C9: the bound check `f < len(d)` accepts every negative integer
index, both in `get` and in `del_`'s parent walk, so a negative segment never
produces the not-found result; within Python's negative range the segment
resolves to the element counted from the end (`len + i`), and in particular
index `-1` on a non-empty sequence resolves to its last element. -/
theorem C9 (xs : List JVal) (i : Int) (hneg : i < 0) :
    decide (i < (xs.length : Int)) = true
    ∧ (∀ k : JVal → Except Unit JVal, delWalk (JVal.arr xs) [Seg.idx i] k ≠ DStep.stop)
    ∧ getPath (JVal.arr xs) [Seg.idx i] ≠ GetRes.notFound
    ∧ (-(xs.length : Int) ≤ i →
        ∃ v, listGetN xs ((xs.length : Int) + i).toNat = some v
          ∧ getPath (JVal.arr xs) [Seg.idx i] = GetRes.val v)
    ∧ (∀ h : xs ≠ [], i = -1 → getPath (JVal.arr xs) [Seg.idx i] = GetRes.val (xs.getLast h)) := by
  have hlt : i < (xs.length : Int) := by omega
  have hnpos : ¬ (0 ≤ i) := by omega
  refine ⟨by simpa using hlt, ?_, ?_, ?_, ?_⟩
  · intro k
    simp only [delWalk, if_pos hlt]
    cases hp : pyIdx xs i with
    | none => simp
    | some x =>
        cases hk : k x with
        | error e => simp [delWalk, hk]
        | ok x' =>
            cases hs : pySetItem (JVal.arr xs) (Seg.idx i) x' with
            | ok d' => simp [delWalk, hk, hs]
            | error e => simp [delWalk, hk, hs]
  · rw [getPath, if_pos hlt]
    cases hp : pyIdx xs i with
    | none => simp
    | some x => simp [getPath]
  · intro hge
    have hcond : 0 ≤ i ∨ 0 ≤ (xs.length : Int) + i := Or.inr (by omega)
    have hn : normIdx xs i = ((xs.length : Int) + i).toNat := by
      simp [normIdx, hnpos]
    have hlen : ((xs.length : Int) + i).toNat < xs.length := by omega
    obtain ⟨v, hv⟩ := listGetN_isSome_of_lt hlen
    refine ⟨v, hv, ?_⟩
    rw [getPath, if_pos hlt, pyIdx, if_pos hcond, hn, hv]
    simp [getPath]
  · intro h hi
    subst hi
    have hpos : 1 ≤ xs.length := List.length_pos.mpr h
    have hcond : 0 ≤ (-1 : Int) ∨ 0 ≤ (xs.length : Int) + (-1) := Or.inr (by omega)
    have hn : normIdx xs (-1) = xs.length - 1 := by
      simp [normIdx]
      omega
    rw [getPath, if_pos hlt, pyIdx, if_pos hcond, hn, listGetN_last h]
    simp [getPath]

/-- Witness for C9: the theorem at index `-1` into a two-element sequence. -/
theorem C9_witness :
    decide ((-1 : Int) < (([JVal.num 1, JVal.num 2] : List JVal).length : Int)) = true
    ∧ getPath (JVal.arr [JVal.num 1, JVal.num 2]) [Seg.idx (-1)] ≠ GetRes.notFound :=
  ⟨(C9 [JVal.num 1, JVal.num 2] (-1) (by decide)).1,
   (C9 [JVal.num 1, JVal.num 2] (-1) (by decide)).2.2.1⟩

/-- Running `set` without the activation pass, along a parent path of string keys
that auto-vivifies cleanly: the walk succeeds, the dump persists, and reading
the full path afterwards reads the written parent. -/
theorem setOp_keyPath {root : JVal} {kvs0 : List (String × JVal)} {dt : String}
    {fields' : List Seg} {lastS : String} {v : JVal} {cia : Bool}
    {pfs pfs' : List (String × JVal)}
    (hroot : root = JVal.obj kvs0) (hdt : dt ∈ pathMapKeys)
    (hviv : vivParent? root (Seg.key dt :: fields') = some (JVal.obj pfs))
    (hact : setCont (Seg.key lastS) v cia (JVal.obj pfs) = Except.ok (JVal.obj pfs')) :
    ∃ r, setOp root ((Seg.key dt :: fields') ++ [Seg.key lastS]) v cia = some r
      ∧ getPath r ((Seg.key dt :: fields') ++ [Seg.key lastS])
          = getPath (JVal.obj pfs') [Seg.key lastS]
      ∧ getPath r (Seg.key dt :: fields') = GetRes.val (JVal.obj pfs') := by
  subst hroot
  have hlast : ((Seg.key dt :: fields') ++ [Seg.key lastS]).getLast? = some (Seg.key lastS) :=
    List.getLast?_concat _
  have hdrop : ((Seg.key dt :: fields') ++ [Seg.key lastS]).dropLast = Seg.key dt :: fields' :=
    List.dropLast_concat
  obtain ⟨mem, hw, hg⟩ := walkAndApply_of_viv hviv hact
  obtain ⟨r, hd, hgr⟩ := dumpStep_of_val kvs0 hdt hg
  refine ⟨r, ?_, ?_, hgr⟩
  · rw [List.cons_append] at hlast hdrop ⊢
    simp only [setOp, hlast, hdrop, hw, hd]
  · rw [getPath_append, hgr]

/-- Claim C5, counterexample: with `acc = {"a": [5]}` and path
`acc -> a -> 0`, the value currently stored at the path is `5`, not a
sequence, yet `set(7, ...)` reaches a list parent whose membership test
`0 in [5]` is false and dies in `d.update` (`AttributeError`), so nothing is
written and a subsequent `get` still returns `5`, not `7`. -/
theorem C5_counterexample :
    getPath (JVal.obj [("acc", JVal.obj [("a", JVal.arr [JVal.num 5])])])
      [Seg.key "acc", Seg.key "a", Seg.idx 0] = GetRes.val (JVal.num 5)
    ∧ setOp (JVal.obj [("acc", JVal.obj [("a", JVal.arr [JVal.num 5])])])
      [Seg.key "acc", Seg.key "a", Seg.idx 0] (JVal.num 7) false = none
    ∧ getPath (JVal.obj [("acc", JVal.obj [("a", JVal.arr [JVal.num 5])])])
      [Seg.key "acc", Seg.key "a", Seg.idx 0] ≠ GetRes.val (JVal.num 7) := by
  refine ⟨rfl, rfl, ?_⟩
  rw [show getPath (JVal.obj [("acc", JVal.obj [("a", JVal.arr [JVal.num 5])])])
      [Seg.key "acc", Seg.key "a", Seg.idx 0] = GetRes.val (JVal.num 5) from rfl]
  simp

/-- Claim C5, amended: for a non-empty path starting at a document name whose
parent segments are string keys traversing only dicts (absent or `None`
intermediates auto-vivified to `{}`) and whose final segment is a string key
whose current value in the parent dict is not a sequence, `set(V, D, P)`
persists and a subsequent `get(D, P)` returns `V`. -/
theorem C5_amended (root : JVal) (kvs0 : List (String × JVal)) (dt : String)
    (fields' : List Seg) (lastS : String) (v : JVal) (pfs : List (String × JVal))
    (hroot : root = JVal.obj kvs0) (hdt : dt ∈ pathMapKeys)
    (hviv : vivParent? root (Seg.key dt :: fields') = some (JVal.obj pfs))
    (hns : ∀ xs, findKey lastS pfs ≠ some (JVal.arr xs)) :
    ∃ r, setOp root ((Seg.key dt :: fields') ++ [Seg.key lastS]) v false = some r
      ∧ getPath r ((Seg.key dt :: fields') ++ [Seg.key lastS]) = GetRes.val v := by
  have happ : applyLast (JVal.obj pfs) (Seg.key lastS) v
      = Except.ok (JVal.obj (replaceOrAppend lastS v pfs)) := by
    cases hf : findKey lastS pfs with
    | some x =>
        cases x <;> first
          | exact absurd hf (hns _)
          | simp [applyLast, pyContains, any_key_of_findKey_some hf, pyGetItem, hf,
              pyUpdate, segKeyStr]
    | none =>
        simp [applyLast, pyContains, any_key_of_findKey_none hf, pyUpdate, segKeyStr]
  have hact : setCont (Seg.key lastS) v false (JVal.obj pfs)
      = Except.ok (JVal.obj (replaceOrAppend lastS v pfs)) := by
    simp [setCont, happ]
  obtain ⟨r, hs, hg, hpar⟩ := setOp_keyPath hroot hdt hviv hact
  refine ⟨r, hs, ?_⟩
  rw [hg, getPath_obj_key (findKey_replaceOrAppend_self lastS v pfs)]
  simp [getPath]

/-- Witness for C5: writing `42` at `acc -> x` in a store whose `acc`
document is empty, then reading it back. -/
theorem C5_witness : ∃ r,
    setOp (JVal.obj [("acc", JVal.obj [])]) ([Seg.key "acc"] ++ [Seg.key "x"])
      (JVal.num 42) false = some r
    ∧ getPath r ([Seg.key "acc"] ++ [Seg.key "x"]) = GetRes.val (JVal.num 42) :=
  C5_amended _ [("acc", JVal.obj [])] "acc" [] "x" (JVal.num 42) []
    rfl (by decide) (by simp [vivParent?, findKey, isNull])
    (fun xs h => by simp [findKey] at h)

/-- Claim C6, counterexample: with `acc = {"a": [[1], 2]}` and path
`acc -> a -> 0`, the value currently stored at the path is the sequence
`[1]`, yet `set` tests `0 in [[1], 2]` (list membership, not an index), gets
`False`, and dies in `d.update` on the list: nothing is appended and nothing
is persisted. -/
theorem C6_counterexample :
    getPath (JVal.obj [("acc", JVal.obj [("a", JVal.arr [JVal.arr [JVal.num 1], JVal.num 2])])])
      [Seg.key "acc", Seg.key "a", Seg.idx 0] = GetRes.val (JVal.arr [JVal.num 1])
    ∧ setOp (JVal.obj [("acc", JVal.obj [("a", JVal.arr [JVal.arr [JVal.num 1], JVal.num 2])])])
      [Seg.key "acc", Seg.key "a", Seg.idx 0] (JVal.num 9) false = none := ⟨rfl, rfl⟩

/-- Claim C6, amended: when the parent of the path is a dict and the final
segment is a string key whose current value is a sequence `s`, `set(V, D, P)`
appends `V` to `s` — the existing elements are preserved in order and the
sequence is not overwritten — and `get(D, P)` then returns `s ++ [V]`. -/
theorem C6_amended (root : JVal) (kvs0 : List (String × JVal)) (dt : String)
    (fields' : List Seg) (lastS : String) (v : JVal) (pfs : List (String × JVal))
    (s : List JVal)
    (hroot : root = JVal.obj kvs0) (hdt : dt ∈ pathMapKeys)
    (hviv : vivParent? root (Seg.key dt :: fields') = some (JVal.obj pfs))
    (hseq : findKey lastS pfs = some (JVal.arr s)) :
    ∃ r, setOp root ((Seg.key dt :: fields') ++ [Seg.key lastS]) v false = some r
      ∧ getPath r ((Seg.key dt :: fields') ++ [Seg.key lastS])
          = GetRes.val (JVal.arr (s ++ [v])) := by
  have happ : applyLast (JVal.obj pfs) (Seg.key lastS) v
      = Except.ok (JVal.obj (replaceOrAppend lastS (JVal.arr (s ++ [v])) pfs)) := by
    simp [applyLast, pyContains, any_key_of_findKey_some hseq, pyGetItem, hseq,
      pySetItem, segKeyStr]
  have hact : setCont (Seg.key lastS) v false (JVal.obj pfs)
      = Except.ok (JVal.obj (replaceOrAppend lastS (JVal.arr (s ++ [v])) pfs)) := by
    simp [setCont, happ]
  obtain ⟨r, hs, hg, hpar⟩ := setOp_keyPath hroot hdt hviv hact
  refine ⟨r, hs, ?_⟩
  rw [hg, getPath_obj_key (findKey_replaceOrAppend_self lastS (JVal.arr (s ++ [v])) pfs)]
  simp [getPath]

/-- Running `del_` along a parent path that resolves, with a continuation that
succeeds: the walk rebuilds the root, the dump persists, and reading the
parent path afterwards reads the continuation's result. -/
theorem delOp_keyParent {root : JVal} (kvs0 : List (String × JVal)) {dt : String}
    {rest : List Seg} {last : Seg} {cia : Bool} {x x' : JVal}
    (hroot : root = JVal.obj kvs0) (hdt : dt ∈ pathMapKeys)
    (hres : getPath root (Seg.key dt :: rest) = GetRes.val x)
    (hact : delCont last cia x = Except.ok x') :
    ∃ r, delOp root ((Seg.key dt :: rest) ++ [last]) cia = DelRes.persisted r
      ∧ getPath r (Seg.key dt :: rest) = GetRes.val x' := by
  subst hroot
  have hlast : ((Seg.key dt :: rest) ++ [last]).getLast? = some last := List.getLast?_concat _
  have hdrop : ((Seg.key dt :: rest) ++ [last]).dropLast = Seg.key dt :: rest :=
    List.dropLast_concat
  obtain ⟨mem, hw, hg⟩ := delWalk_ok_of_val hres hact
  obtain ⟨r, hd, hgr⟩ := dumpStep_of_val kvs0 hdt hg
  refine ⟨r, ?_, hgr⟩
  rw [List.cons_append] at hlast hdrop ⊢
  simp only [delOp, hlast, hdrop, hw, hd]

theorem isActiveEntry_eq_true {k : String} {fs : List (String × JVal)}
    (h : findKey "is_activated" fs = some (JVal.bool true)) :
    isActiveEntry (k, JVal.obj fs) = true := by
  simp [isActiveEntry, h]

theorem isActiveEntry_eq_false {k : String} {fs : List (String × JVal)}
    (h : findKey "is_activated" fs = some (JVal.bool false)) :
    isActiveEntry (k, JVal.obj fs) = false := by
  simp [isActiveEntry, h]

/-- Claim C3: with two activatable objects both inactive, `set` on either of
them (writing an object that is itself inactive) with `correct_is_act=True`
leaves exactly one of the two activated, namely the first in the mapping's
insertion order. -/
theorem C3 (k1 k2 kt : String) (f1 f2 fv : List (String × JVal))
    (hne : k1 ≠ k2) (ht : kt = k1 ∨ kt = k2)
    (h1 : findKey "is_activated" f1 = some (JVal.bool false))
    (h2 : findKey "is_activated" f2 = some (JVal.bool false))
    (hv : findKey "is_activated" fv = some (JVal.bool false)) :
    ∃ r g1 g2,
      setOp (JVal.obj [("acc", JVal.obj [("vk",
          JVal.obj [(k1, JVal.obj f1), (k2, JVal.obj f2)])])])
        [Seg.key "acc", Seg.key "vk", Seg.key kt] (JVal.obj fv) true = some r
      ∧ getPath r [Seg.key "acc", Seg.key "vk"]
          = GetRes.val (JVal.obj [(k1, JVal.obj g1), (k2, JVal.obj g2)])
      ∧ findKey "is_activated" g1 = some (JVal.bool true)
      ∧ findKey "is_activated" g2 = some (JVal.bool false) := by
  have hviv : vivParent? (JVal.obj [("acc", JVal.obj [("vk",
      JVal.obj [(k1, JVal.obj f1), (k2, JVal.obj f2)])])]) [Seg.key "acc", Seg.key "vk"]
      = some (JVal.obj [(k1, JVal.obj f1), (k2, JVal.obj f2)]) := by
    simp [vivParent?, findKey, isNull]
  rcases ht with ht | ht <;> rw [ht]
  · have hfk : findKey k1 [(k1, JVal.obj f1), (k2, JVal.obj f2)] = some (JVal.obj f1) := by
      simp [findKey]
    have happ : applyLast (JVal.obj [(k1, JVal.obj f1), (k2, JVal.obj f2)]) (Seg.key k1)
        (JVal.obj fv)
        = Except.ok (JVal.obj [(k1, JVal.obj fv), (k2, JVal.obj f2)]) := by
      simp [applyLast, pyContains, any_key_of_findKey_some hfk, pyGetItem, hfk, pyUpdate,
        segKeyStr, replaceOrAppend]
    have hap : actPass (JVal.obj [(k1, JVal.obj fv), (k2, JVal.obj f2)])
        = Except.ok (JVal.obj
            [(k1, JVal.obj (replaceOrAppend "is_activated" (JVal.bool true) fv)),
             (k2, JVal.obj f2)]) :=
      actPass_activate_first hv (by intro q hq; simp at hq; subst hq; exact ⟨f2, rfl, h2⟩)
    have hact : setCont (Seg.key k1) (JVal.obj fv) true
        (JVal.obj [(k1, JVal.obj f1), (k2, JVal.obj f2)])
        = Except.ok (JVal.obj
            [(k1, JVal.obj (replaceOrAppend "is_activated" (JVal.bool true) fv)),
             (k2, JVal.obj f2)]) := by
      simp [setCont, happ, hap]
    obtain ⟨r, hs, hg, hpar⟩ := setOp_keyPath rfl (by decide) hviv hact
    exact ⟨r, _, _, hs, hpar, findKey_replaceOrAppend_self _ _ _, h2⟩
  · have hbe : (k1 == k2) = false := beq_eq_false_iff_ne.mpr hne
    have hfk : findKey k2 [(k1, JVal.obj f1), (k2, JVal.obj f2)] = some (JVal.obj f2) := by
      simp [findKey, hbe]
    have happ : applyLast (JVal.obj [(k1, JVal.obj f1), (k2, JVal.obj f2)]) (Seg.key k2)
        (JVal.obj fv)
        = Except.ok (JVal.obj [(k1, JVal.obj f1), (k2, JVal.obj fv)]) := by
      simp [applyLast, pyContains, any_key_of_findKey_some hfk, pyGetItem, hfk, pyUpdate,
        segKeyStr, replaceOrAppend, hbe]
    have hap : actPass (JVal.obj [(k1, JVal.obj f1), (k2, JVal.obj fv)])
        = Except.ok (JVal.obj
            [(k1, JVal.obj (replaceOrAppend "is_activated" (JVal.bool true) f1)),
             (k2, JVal.obj fv)]) :=
      actPass_activate_first h1 (by intro q hq; simp at hq; subst hq; exact ⟨fv, rfl, hv⟩)
    have hact : setCont (Seg.key k2) (JVal.obj fv) true
        (JVal.obj [(k1, JVal.obj f1), (k2, JVal.obj f2)])
        = Except.ok (JVal.obj
            [(k1, JVal.obj (replaceOrAppend "is_activated" (JVal.bool true) f1)),
             (k2, JVal.obj fv)]) := by
      simp [setCont, happ, hap]
    obtain ⟨r, hs, hg, hpar⟩ := setOp_keyPath rfl (by decide) hviv hact
    exact ⟨r, _, _, hs, hpar, findKey_replaceOrAppend_self _ _ _, hv⟩

/-- Witness for C3: two concrete inactive accounts, writing to the second. -/
theorem C3_witness : ∃ r g1 g2,
    setOp (JVal.obj [("acc", JVal.obj [("vk",
        JVal.obj [("a", JVal.obj [("is_activated", JVal.bool false)]),
                  ("b", JVal.obj [("is_activated", JVal.bool false)])])])])
      [Seg.key "acc", Seg.key "vk", Seg.key "b"]
      (JVal.obj [("is_activated", JVal.bool false)]) true = some r
    ∧ getPath r [Seg.key "acc", Seg.key "vk"]
        = GetRes.val (JVal.obj [("a", JVal.obj g1), ("b", JVal.obj g2)])
    ∧ findKey "is_activated" g1 = some (JVal.bool true)
    ∧ findKey "is_activated" g2 = some (JVal.bool false) :=
  C3 "a" "b" "b" [("is_activated", JVal.bool false)] [("is_activated", JVal.bool false)]
    [("is_activated", JVal.bool false)] (by decide) (Or.inr rfl) rfl rfl rfl

/-- Claim C4: with three activatable objects of which exactly one is active,
deleting the active one with `correct_is_act=True` persists a mapping of the
two remaining objects in which exactly one is active (the activation pass
re-activates the first remaining entry). -/
theorem C4 (root : JVal) (kvs0 : List (String × JVal)) (dt : String) (rest : List Seg)
    (k1 k2 k3 kt : String) (f1 f2 f3 : List (String × JVal)) (b1 b2 b3 : Bool)
    (hroot : root = JVal.obj kvs0) (hdt : dt ∈ pathMapKeys)
    (h12 : k1 ≠ k2) (h13 : k1 ≠ k3) (h23 : k2 ≠ k3)
    (hres : getPath root (Seg.key dt :: rest)
        = GetRes.val (JVal.obj [(k1, JVal.obj f1), (k2, JVal.obj f2), (k3, JVal.obj f3)]))
    (hf1 : findKey "is_activated" f1 = some (JVal.bool b1))
    (hf2 : findKey "is_activated" f2 = some (JVal.bool b2))
    (hf3 : findKey "is_activated" f3 = some (JVal.bool b3))
    (hone : ((b1 && !b2 && !b3) || (!b1 && b2 && !b3) || (!b1 && !b2 && b3)) = true)
    (hkt : kt = if b1 then k1 else if b2 then k2 else k3) :
    ∃ r m, delOp root ((Seg.key dt :: rest) ++ [Seg.key kt]) true = DelRes.persisted r
      ∧ getPath r (Seg.key dt :: rest) = GetRes.val (JVal.obj m)
      ∧ m.length = 2
      ∧ m.countP isActiveEntry = 1 := by
  have hb12 : (k1 == k2) = false := beq_eq_false_iff_ne.mpr h12
  have hb13 : (k1 == k3) = false := beq_eq_false_iff_ne.mpr h13
  have hb23 : (k2 == k3) = false := beq_eq_false_iff_ne.mpr h23
  cases b1 <;> cases b2 <;> cases b3 <;> simp at hone hkt <;> rw [hkt]
  · -- only the third object is active: delete it, the first gets re-activated
    have hd1 : delLast (JVal.obj [(k1, JVal.obj f1), (k2, JVal.obj f2), (k3, JVal.obj f3)])
        (Seg.key k3) = Except.ok (JVal.obj [(k1, JVal.obj f1), (k2, JVal.obj f2)]) := by
      simp [delLast, List.any_cons, hb13, hb23, eraseKey]
    have hap : actPass (JVal.obj [(k1, JVal.obj f1), (k2, JVal.obj f2)])
        = Except.ok (JVal.obj
            [(k1, JVal.obj (replaceOrAppend "is_activated" (JVal.bool true) f1)),
             (k2, JVal.obj f2)]) :=
      actPass_activate_first hf1 (by intro q hq; simp at hq; subst hq; exact ⟨f2, rfl, hf2⟩)
    have hact : delCont (Seg.key k3) true
        (JVal.obj [(k1, JVal.obj f1), (k2, JVal.obj f2), (k3, JVal.obj f3)])
        = Except.ok (JVal.obj
            [(k1, JVal.obj (replaceOrAppend "is_activated" (JVal.bool true) f1)),
             (k2, JVal.obj f2)]) := by
      simp [delCont, hd1, hap]
    obtain ⟨r, hdel, hgr⟩ := delOp_keyParent kvs0 hroot hdt hres hact
    refine ⟨r, _, hdel, hgr, rfl, ?_⟩
    simp [List.countP_cons,
      isActiveEntry_eq_true (findKey_replaceOrAppend_self "is_activated" (JVal.bool true) f1),
      isActiveEntry_eq_false hf2]
  · -- only the second object is active: delete it, the first gets re-activated
    have hd1 : delLast (JVal.obj [(k1, JVal.obj f1), (k2, JVal.obj f2), (k3, JVal.obj f3)])
        (Seg.key k2) = Except.ok (JVal.obj [(k1, JVal.obj f1), (k3, JVal.obj f3)]) := by
      simp [delLast, List.any_cons, hb12, eraseKey]
    have hap : actPass (JVal.obj [(k1, JVal.obj f1), (k3, JVal.obj f3)])
        = Except.ok (JVal.obj
            [(k1, JVal.obj (replaceOrAppend "is_activated" (JVal.bool true) f1)),
             (k3, JVal.obj f3)]) :=
      actPass_activate_first hf1 (by intro q hq; simp at hq; subst hq; exact ⟨f3, rfl, hf3⟩)
    have hact : delCont (Seg.key k2) true
        (JVal.obj [(k1, JVal.obj f1), (k2, JVal.obj f2), (k3, JVal.obj f3)])
        = Except.ok (JVal.obj
            [(k1, JVal.obj (replaceOrAppend "is_activated" (JVal.bool true) f1)),
             (k3, JVal.obj f3)]) := by
      simp [delCont, hd1, hap]
    obtain ⟨r, hdel, hgr⟩ := delOp_keyParent kvs0 hroot hdt hres hact
    refine ⟨r, _, hdel, hgr, rfl, ?_⟩
    simp [List.countP_cons,
      isActiveEntry_eq_true (findKey_replaceOrAppend_self "is_activated" (JVal.bool true) f1),
      isActiveEntry_eq_false hf3]
  · -- only the first object is active: delete it, the second gets re-activated
    have hd1 : delLast (JVal.obj [(k1, JVal.obj f1), (k2, JVal.obj f2), (k3, JVal.obj f3)])
        (Seg.key k1) = Except.ok (JVal.obj [(k2, JVal.obj f2), (k3, JVal.obj f3)]) := by
      simp [delLast, List.any_cons, eraseKey]
    have hap : actPass (JVal.obj [(k2, JVal.obj f2), (k3, JVal.obj f3)])
        = Except.ok (JVal.obj
            [(k2, JVal.obj (replaceOrAppend "is_activated" (JVal.bool true) f2)),
             (k3, JVal.obj f3)]) :=
      actPass_activate_first hf2 (by intro q hq; simp at hq; subst hq; exact ⟨f3, rfl, hf3⟩)
    have hact : delCont (Seg.key k1) true
        (JVal.obj [(k1, JVal.obj f1), (k2, JVal.obj f2), (k3, JVal.obj f3)])
        = Except.ok (JVal.obj
            [(k2, JVal.obj (replaceOrAppend "is_activated" (JVal.bool true) f2)),
             (k3, JVal.obj f3)]) := by
      simp [delCont, hd1, hap]
    obtain ⟨r, hdel, hgr⟩ := delOp_keyParent kvs0 hroot hdt hres hact
    refine ⟨r, _, hdel, hgr, rfl, ?_⟩
    simp [List.countP_cons,
      isActiveEntry_eq_true (findKey_replaceOrAppend_self "is_activated" (JVal.bool true) f2),
      isActiveEntry_eq_false hf3]

/-- Witness for C4: three concrete accounts with the first active. -/
theorem C4_witness : ∃ r m,
    delOp (JVal.obj [("acc", JVal.obj
        [("a", JVal.obj [("is_activated", JVal.bool true)]),
         ("b", JVal.obj [("is_activated", JVal.bool false)]),
         ("c", JVal.obj [("is_activated", JVal.bool false)])])])
      ([Seg.key "acc"] ++ [Seg.key "a"]) true = DelRes.persisted r
    ∧ getPath r [Seg.key "acc"] = GetRes.val (JVal.obj m)
    ∧ m.length = 2
    ∧ m.countP isActiveEntry = 1 :=
  C4 _ [("acc", JVal.obj
        [("a", JVal.obj [("is_activated", JVal.bool true)]),
         ("b", JVal.obj [("is_activated", JVal.bool false)]),
         ("c", JVal.obj [("is_activated", JVal.bool false)])])]
    "acc" [] "a" "b" "c" "a"
    [("is_activated", JVal.bool true)] [("is_activated", JVal.bool false)]
    [("is_activated", JVal.bool false)] true false false
    rfl (by decide) (by decide) (by decide) (by decide)
    rfl rfl rfl rfl rfl rfl

/-- Claim C10: deleting an absent key under a parent that resolves to a
non-empty mapping of inactive activatable objects, with `correct_is_act=True`,
removes nothing but still runs the activation pass: the first entry becomes
active and the document is persisted — a no-op delete that mutates the
document (the persisted first object differs from the original). -/
theorem C10 (root : JVal) (kvs0 : List (String × JVal)) (dt : String) (rest : List Seg)
    (kt k0 : String) (f0 : List (String × JVal)) (others : List (String × JVal))
    (hroot : root = JVal.obj kvs0) (hdt : dt ∈ pathMapKeys)
    (hres : getPath root (Seg.key dt :: rest)
        = GetRes.val (JVal.obj ((k0, JVal.obj f0) :: others)))
    (hflag0 : findKey "is_activated" f0 = some (JVal.bool false))
    (hothers : ∀ q ∈ others, ∃ fs, q.2 = JVal.obj fs
        ∧ findKey "is_activated" fs = some (JVal.bool false))
    (habsent : (((k0, JVal.obj f0) :: others).any fun p => p.1 == kt) = false) :
    ∃ r, delOp root ((Seg.key dt :: rest) ++ [Seg.key kt]) true = DelRes.persisted r
      ∧ getPath r (Seg.key dt :: rest) = GetRes.val (JVal.obj
          ((k0, JVal.obj (replaceOrAppend "is_activated" (JVal.bool true) f0)) :: others))
      ∧ JVal.obj (replaceOrAppend "is_activated" (JVal.bool true) f0) ≠ JVal.obj f0 := by
  have hd1 : delLast (JVal.obj ((k0, JVal.obj f0) :: others)) (Seg.key kt)
      = Except.ok (JVal.obj ((k0, JVal.obj f0) :: others)) := by
    simp [delLast, habsent]
  have hap : actPass (JVal.obj ((k0, JVal.obj f0) :: others))
      = Except.ok (JVal.obj
          ((k0, JVal.obj (replaceOrAppend "is_activated" (JVal.bool true) f0)) :: others)) :=
    actPass_activate_first hflag0 hothers
  have hact : delCont (Seg.key kt) true (JVal.obj ((k0, JVal.obj f0) :: others))
      = Except.ok (JVal.obj
          ((k0, JVal.obj (replaceOrAppend "is_activated" (JVal.bool true) f0)) :: others)) := by
    simp [delCont, hd1, hap]
  obtain ⟨r, hdel, hgr⟩ := delOp_keyParent kvs0 hroot hdt hres hact
  refine ⟨r, hdel, hgr, ?_⟩
  intro h
  injection h with h'
  have hcontra := congrArg (findKey "is_activated") h'
  rw [findKey_replaceOrAppend_self, hflag0] at hcontra
  simp at hcontra

/-- Witness for C10: a one-entry inactive mapping and an absent key. -/
theorem C10_witness : ∃ r,
    delOp (JVal.obj [("univ", JVal.obj [("msu", JVal.obj [("is_activated", JVal.bool false)])])])
      ([Seg.key "univ"] ++ [Seg.key "ghost"]) true = DelRes.persisted r
    ∧ getPath r [Seg.key "univ"] = GetRes.val (JVal.obj
        [("msu", JVal.obj (replaceOrAppend "is_activated" (JVal.bool true)
            [("is_activated", JVal.bool false)]))])
    ∧ JVal.obj (replaceOrAppend "is_activated" (JVal.bool true)
          [("is_activated", JVal.bool false)])
        ≠ JVal.obj [("is_activated", JVal.bool false)] :=
  C10 _ [("univ", JVal.obj [("msu", JVal.obj [("is_activated", JVal.bool false)])])]
    "univ" [] "ghost" "msu" [("is_activated", JVal.bool false)] []
    rfl (by decide) rfl rfl (by intro q hq; simp at hq) (by simp)

/-- Claim C7: after `drop_activations` on a path resolving to a mapping of
activatable objects, the operation persists, every object in the mapping has
`is_activated = False`, and a subsequent `get_active_obj` on the same path
fails (no active entry). -/
theorem C7 (root : JVal) (kvs0 kvs : List (String × JVal)) (dt : String) (rest : List Seg)
    (hroot : root = JVal.obj kvs0) (hdt : dt ∈ pathMapKeys)
    (hres : getPath root (Seg.key dt :: rest) = GetRes.val (JVal.obj kvs))
    (hvals : ∀ q ∈ kvs, ∃ fs, q.2 = JVal.obj fs) :
    ∃ r kvs', dropOp root (Seg.key dt :: rest) = some r
      ∧ getPath r (Seg.key dt :: rest) = GetRes.val (JVal.obj kvs')
      ∧ (∀ q ∈ kvs', ∃ fs, q.2 = JVal.obj fs
          ∧ findKey "is_activated" fs = some (JVal.bool false))
      ∧ getActiveObj r (Seg.key dt :: rest) = none := by
  subst hroot
  obtain ⟨kvs', hsf, hprop, hkeys⟩ := setAllFalse_ok hvals
  obtain ⟨mem, hm, hgm⟩ := modifyAt_of_val (JVal.obj kvs') hres
  obtain ⟨r, hd, hgr⟩ := dumpStep_of_val kvs0 hdt hgm
  refine ⟨r, kvs', ?_, hgr, hprop, ?_⟩
  · simp only [dropOp, hres, hsf, hm, hd]
  · simp only [getActiveObj, hgr]
    exact findActiveEntries_none_of_false hprop

/-- Witness for C7: dropping activations on a two-entry mapping with one
active entry. -/
theorem C7_witness : ∃ r kvs',
    dropOp (JVal.obj [("univ", JVal.obj
        [("m", JVal.obj [("is_activated", JVal.bool true)]),
         ("n", JVal.obj [("is_activated", JVal.bool false)])])]) [Seg.key "univ"] = some r
    ∧ getPath r [Seg.key "univ"] = GetRes.val (JVal.obj kvs')
    ∧ (∀ q ∈ kvs', ∃ fs, q.2 = JVal.obj fs
        ∧ findKey "is_activated" fs = some (JVal.bool false))
    ∧ getActiveObj r [Seg.key "univ"] = none :=
  C7 _ [("univ", JVal.obj
        [("m", JVal.obj [("is_activated", JVal.bool true)]),
         ("n", JVal.obj [("is_activated", JVal.bool false)])])]
    [("m", JVal.obj [("is_activated", JVal.bool true)]),
     ("n", JVal.obj [("is_activated", JVal.bool false)])]
    "univ" [] rfl (by decide) rfl
    (by
      intro q hq
      rcases List.mem_cons.mp hq with hq | hq
      · exact ⟨[("is_activated", JVal.bool true)], by rw [hq]⟩
      · simp at hq
        exact ⟨[("is_activated", JVal.bool false)], by rw [hq]⟩)

/-- Claim C8: on a path resolving to a mapping of activatable objects whose
flags are booleans, `get_active_obj` returns the first entry in iteration
order whose `is_activated` is true, paired with its key, and fails exactly
when the mapping is empty or no entry is active. -/
theorem C8 (root : JVal) (path : List Seg) (kvs : List (String × JVal))
    (hres : getPath root path = GetRes.val (JVal.obj kvs))
    (hact : ∀ q ∈ kvs, ∃ fs b, q.2 = JVal.obj fs
        ∧ findKey "is_activated" fs = some (JVal.bool b)) :
    getActiveObj root path = kvs.find? isActiveEntry
    ∧ (getActiveObj root path = none ↔ ∀ q ∈ kvs, isActiveEntry q = false) := by
  have h1 : getActiveObj root path = kvs.find? isActiveEntry := by
    simp only [getActiveObj, hres]
    exact findActiveEntries_eq_find hact
  refine ⟨h1, ?_⟩
  rw [h1]
  constructor
  · intro h q hq
    have := List.find?_eq_none.mp h q hq
    simpa using this
  · intro h
    apply List.find?_eq_none.mpr
    intro q hq
    simp [h q hq]

/-- Witness for C8: the second of two entries is the first active one. -/
theorem C8_witness :
    getActiveObj (JVal.obj [("univ", JVal.obj
        [("m", JVal.obj [("is_activated", JVal.bool false)]),
         ("n", JVal.obj [("is_activated", JVal.bool true)])])]) [Seg.key "univ"]
      = ([("m", JVal.obj [("is_activated", JVal.bool false)]),
          ("n", JVal.obj [("is_activated", JVal.bool true)])].find? isActiveEntry) :=
  (C8 (JVal.obj [("univ", JVal.obj
        [("m", JVal.obj [("is_activated", JVal.bool false)]),
         ("n", JVal.obj [("is_activated", JVal.bool true)])])]) [Seg.key "univ"]
    [("m", JVal.obj [("is_activated", JVal.bool false)]),
     ("n", JVal.obj [("is_activated", JVal.bool true)])]
    rfl
    (by
      intro q hq
      rcases List.mem_cons.mp hq with hq | hq
      · exact ⟨[("is_activated", JVal.bool false)], false, by rw [hq], rfl⟩
      · simp at hq
        exact ⟨[("is_activated", JVal.bool true)], true, by rw [hq], rfl⟩)).1

/-- Witness for C6: appending to `adm -> bc_emails` over the default admin
document, reproducing the spec's scenario. -/
theorem C6_witness : ∃ r,
    setOp (JVal.obj [("adm", JVal.obj [("bc_emails", JVal.arr []), ("mon_groups", JVal.arr [])])])
      ([Seg.key "adm"] ++ [Seg.key "bc_emails"]) (JVal.str "a@x.com") false = some r
    ∧ getPath r ([Seg.key "adm"] ++ [Seg.key "bc_emails"])
        = GetRes.val (JVal.arr ([] ++ [JVal.str "a@x.com"])) :=
  C6_amended _ [("adm", JVal.obj [("bc_emails", JVal.arr []), ("mon_groups", JVal.arr [])])]
    "adm" [] "bc_emails" (JVal.str "a@x.com")
    [("bc_emails", JVal.arr []), ("mon_groups", JVal.arr [])] []
    rfl (by decide) (by simp [vivParent?, findKey, isNull]) (by simp [findKey])

end Vkts
